import Mathlib

/-!
Verification development for the PDF voyage-manifest extraction pipeline.

The definitions below are a shallow embedding of the pipeline variant in
`src/unnamed/part_000` (the variant with `aggregateVoyages`,
`standardizeAllRows` and `extractTablesFromPdf`):

* JSON string-or-null field values become `Option String`; JavaScript
  truthiness of such a value (`null`, `undefined` and `""` are falsy) is
  `jsTruthy`, and the idiom `v || 'N/A'` is `orNA`.
* `aggregateVoyages` folds rows into an insertion-ordered association list,
  mirroring the JavaScript `Map` (insertion order preserved, new keys
  appended, `Array.from(map.values())` at the end).
* The chunk partitioning loop (`slice(i, i + CHUNK_SIZE)` stepping by
  `CHUNK_SIZE`, and the equivalent page-range loop) is `chunksOf`.
* A Structured Extractor call for one chunk is modelled by its observable
  outcome `ExtractorOutcome`: the call threw / the promise rejected, the
  response text failed `JSON.parse`, the parsed value was not an array, or
  it was an array of rows.  `chunkContribution` is the rows a chunk adds to
  the final list (the `catch`/`allSettled` handlers contribute `[]`), and
  `processChunks` additionally counts one completed work unit per chunk,
  mirroring the `onChunkComplete` / `updateEtr` increment performed in the
  `finally` handler of every chunk, success or failure.
-/

/-- `PDF_PAGE_CHUNK_SIZE = 5`: pages per extraction chunk. -/
def PDF_PAGE_CHUNK_SIZE : Nat := 5

/-- `DATA_CHUNK_SIZE = 100`: rows per standardization chunk. -/
def DATA_CHUNK_SIZE : Nat := 100

/-- JavaScript truthiness of a string-or-null field value:
`null`, `undefined` and the empty string are falsy. -/
def jsTruthy : Option String → Bool
  | none => false
  | some s => s ≠ ""

/-- The JavaScript idiom `v || 'N/A'` on a string-or-null value. -/
def orNA (v : Option String) : String :=
  match v with
  | none => "N/A"
  | some s => if s = "" then "N/A" else s

/-- A standardized row: every target-schema field present, as string or null
(`JUMLAH_PENUMPANG` may additionally be carried as a number by a raw object;
`aggregateVoyages` never reads it). -/
structure StandardizedRow where
  TANGGAL : Option String
  NOMOR_VOYAGE : Option String
  PELABUHAN_MUAT : Option String
  PELABUHAN_BONGKAR : Option String
  LAMA_PELAYARAN : Option String
  JUMLAH_PENUMPANG : Option Int
deriving DecidableEq

/-- One output voyage record.  Every field of the JavaScript object is
initialised with `|| 'N/A'` and only ever overwritten by truthy strings, so
the string fields are total and the count is a number. -/
@[ext] structure VoyageRecord where
  TANGGAL : String
  NOMOR_VOYAGE : String
  PELABUHAN_MUAT : String
  PELABUHAN_BONGKAR : String
  LAMA_PELAYARAN : String
  JUMLAH_PENUMPANG : Nat
deriving DecidableEq

/-- The guard `if (!voyageId || voyageId === 'N/A' || voyageId === null) continue;`:
the usable voyage id of a row, or `none` when the row is skipped. -/
def usableVoyageId (row : StandardizedRow) : Option String :=
  match row.NOMOR_VOYAGE with
  | none => none
  | some s => if s = "" ∨ s = "N/A" then none else some s

/-- The record placed in the map by `voyageMap.set(voyageId, {...})` for a
fresh key: each shared field defaulted with `|| 'N/A'`, count `0`. -/
def initRecord (vid : String) (row : StandardizedRow) : VoyageRecord :=
  { TANGGAL := orNA row.TANGGAL
    NOMOR_VOYAGE := vid
    PELABUHAN_MUAT := orNA row.PELABUHAN_MUAT
    PELABUHAN_BONGKAR := orNA row.PELABUHAN_BONGKAR
    LAMA_PELAYARAN := orNA row.LAMA_PELAYARAN
    JUMLAH_PENUMPANG := 0 }

/-- One fill step `if ((cur === 'N/A' || cur === null) && v) cur = v;`.
In this model the current field is a total `String` (it is initialised via
`orNA` and only ever set to truthy strings), so the `=== null` disjunct of
the source guard cannot fire and is dropped. -/
def fillField (cur : String) (v : Option String) : String :=
  if cur = "N/A" ∧ jsTruthy v then v.getD cur else cur

/-- The per-row mutation of a voyage record: `JUMLAH_PENUMPANG += 1`
followed by the four fill-in-missing-data statements. -/
def updateRecord (rec : VoyageRecord) (row : StandardizedRow) : VoyageRecord :=
  { rec with
    JUMLAH_PENUMPANG := rec.JUMLAH_PENUMPANG + 1
    TANGGAL := fillField rec.TANGGAL row.TANGGAL
    PELABUHAN_MUAT := fillField rec.PELABUHAN_MUAT row.PELABUHAN_MUAT
    PELABUHAN_BONGKAR := fillField rec.PELABUHAN_BONGKAR row.PELABUHAN_BONGKAR
    LAMA_PELAYARAN := fillField rec.LAMA_PELAYARAN row.LAMA_PELAYARAN }

/-- The `voyageMap.has / set / get` sequence for one row with usable id `v`:
update the entry for `v` in place if present, else append a fresh entry
(JavaScript `Map` appends new keys at the end and keeps insertion order). -/
def mapUpdate (v : String) (row : StandardizedRow) :
    List (String × VoyageRecord) → List (String × VoyageRecord)
  | [] => [(v, updateRecord (initRecord v row) row)]
  | (k, rec) :: rest =>
    if k = v then (k, updateRecord rec row) :: rest
    else (k, rec) :: mapUpdate v row rest

/-- The body of the `for (const row of standardizedRows)` loop. -/
def applyRow (m : List (String × VoyageRecord)) (row : StandardizedRow) :
    List (String × VoyageRecord) :=
  match usableVoyageId row with
  | none => m
  | some v => mapUpdate v row m

/-- `aggregateVoyages` from `src/unnamed/part_000` (lines 343-376): fold all
rows through the voyage map and return `Array.from(voyageMap.values())`.
The early return for an empty input coincides with the fold on `[]`. -/
def aggregateVoyages (standardizedRows : List StandardizedRow) : List VoyageRecord :=
  (standardizedRows.foldl applyRow []).map Prod.snd

/-- Statement helper: the same row with any carried passenger count removed.
Used to state that aggregation ignores the `JUMLAH_PENUMPANG` carried by
input rows. -/
def clearCount (r : StandardizedRow) : StandardizedRow :=
  { r with JUMLAH_PENUMPANG := none }

/-- Modelled from the spec's words for the field-fill rule: a field value is
*present* when it is non-null and not the placeholder; the empty string is
JavaScript-falsy and therefore also counts as absent. -/
def presentValue : Option String → Bool
  | none => false
  | some s => s ≠ "" && s ≠ "N/A"

/-- Modelled from the spec's words (first-non-missing-wins): the first
present value of a field across a group's rows, or `'N/A'` when none. -/
def firstPresent : List (Option String) → String
  | [] => "N/A"
  | v :: vs => if presentValue v then v.getD "N/A" else firstPresent vs

/-- The group of a voyage id `v`: the input rows whose usable id is `v`,
in input order. -/
def voyageGroup (rows : List StandardizedRow) (v : String) : List StandardizedRow :=
  rows.filter (fun r => usableVoyageId r = some v)

/-- First-match lookup in the association list modelling the `Map`. -/
def alFind (v : String) : List (String × VoyageRecord) → Option VoyageRecord
  | [] => none
  | (k, rec) :: rest => if k = v then some rec else alFind v rest

/-- The keys of the association list, in insertion order. -/
def alKeys (m : List (String × VoyageRecord)) : List String :=
  m.map Prod.fst

/-- The evolution of one key's entry across its group's rows: starting from
`cur` (the entry before those rows, if any), each row either initialises a
fresh record or updates the existing one. -/
def groupAcc (v : String) (cur : Option VoyageRecord) (g : List StandardizedRow) :
    Option VoyageRecord :=
  g.foldl (fun o r => some (updateRecord (o.getD (initRecord v r)) r)) cur

/-- The chunk partitioning loop
`for (let i = 0; i < xs.length; i += K) chunks.push(xs.slice(i, i + K));`
(and the equivalent page-range loop of `extractTablesFromPdf`). -/
def chunksOf (K : Nat) : List α → List (List α)
  | [] => []
  | x :: xs => (x :: xs.take (K - 1)) :: chunksOf K (xs.drop (K - 1))
termination_by l => l.length
decreasing_by simp [List.length_drop]; omega

/-- The observable outcome of one chunk's Structured Extractor call:
the call threw (or its promise rejected), the response text failed
`JSON.parse`, the parsed value was not an array, or it was an array of
rows. -/
inductive ExtractorOutcome (ρ : Type) where
  | thrown
  | unparseable
  | nonArray
  | arrayOf (rows : List ρ)
deriving DecidableEq

/-- The rows a chunk contributes to the final list:
`Array.isArray(parsed) ? parsed : []`, with the `catch` handler (and the
rejected branch of `allSettled`) contributing `[]`. -/
def chunkContribution : ExtractorOutcome ρ → List ρ
  | .arrayOf rows => rows
  | _ => []

/-- A chunk outcome that is a failure in the sense of the spec: a throw, or
unparseable / non-array JSON. -/
def isFailure : ExtractorOutcome ρ → Bool
  | .arrayOf _ => false
  | _ => true

/-- Collect all chunks' contributions in chunk-index order (both
`Promise.all` and `Promise.allSettled` deliver results in submission order)
and count one completed work unit per chunk, as the `finally` handlers do
via `onChunkComplete` / `updateEtr` (`completedChunksRef.current += 1`). -/
def processChunks : List (ExtractorOutcome ρ) → List ρ × Nat
  | [] => ([], 0)
  | c :: cs =>
    let rest := processChunks cs
    (chunkContribution c ++ rest.1, rest.2 + 1)

/-- `standardizeAllRows` from `src/unnamed/part_000` (lines 272-341), with
the Structured Extractor abstracted as a function from the chunk it is shown
to its outcome: partition the rows into chunks of `DATA_CHUNK_SIZE`, submit
each chunk, and concatenate every fulfilled, parseable array response (this
is the one-to-one variant, whose prompt forbids aggregation).  The second
component counts completed work units. -/
def standardizeAllRows (extractor : List ρ → ExtractorOutcome σ)
    (allRows : List ρ) : List σ × Nat :=
  processChunks ((chunksOf DATA_CHUNK_SIZE allRows).map extractor)

/-- An input document as `extractTablesFromPdf` observes it: either it
cannot be opened or decoded (`pdfjsLib.getDocument` rejects or the
`FileReader` errors), or it yields a list of pages. -/
inductive Document (π : Type) where
  | unreadable (err : String)
  | readable (pages : List π)

/-- `extractTablesFromPdf` from `src/unnamed/part_000` (lines 198-270):
an unreadable document rejects the promise (the error propagates to the
caller); otherwise the pages are partitioned into chunks of
`PDF_PAGE_CHUNK_SIZE`, one extractor call is made per chunk, and the chunks'
contributions are flattened.  A zero-page document takes the
`totalPages === 0` early return, which coincides with processing zero
chunks.  The `Nat` component counts the chunks, i.e. both the completed
work units and the extractor submissions. -/
def extractTablesFromPdf (extractor : List π → ExtractorOutcome ρ)
    (doc : Document π) : Except String (List ρ × Nat) :=
  match doc with
  | .unreadable e => .error e
  | .readable pages => .ok (processChunks ((chunksOf PDF_PAGE_CHUNK_SIZE pages).map extractor))

/-- A blank standardized row (all fields null). -/
def blankRow : StandardizedRow :=
  { TANGGAL := none, NOMOR_VOYAGE := none, PELABUHAN_MUAT := none
    PELABUHAN_BONGKAR := none, LAMA_PELAYARAN := none, JUMLAH_PENUMPANG := none }

/-- Counterexample input for the grouping-key claim: voyage `V1` on
`2024-01-01`. -/
def exKeyRow1 : StandardizedRow :=
  { blankRow with
    NOMOR_VOYAGE := some "V1"
    TANGGAL := some "2024-01-01"
    PELABUHAN_MUAT := some "P1"
    PELABUHAN_BONGKAR := some "P2" }

/-- Counterexample input for the grouping-key claim: voyage `V1` on a
different date `2024-02-02`. -/
def exKeyRow2 : StandardizedRow :=
  { exKeyRow1 with TANGGAL := some "2024-02-02" }

/-- Counterexample input for the pre-aggregated-row claim: a `V2` row
carrying an explicit count of 45. -/
def exCountRow : StandardizedRow :=
  { blankRow with
    NOMOR_VOYAGE := some "V2"
    JUMLAH_PENUMPANG := some 45 }

/-- Counterexample input for the pre-aggregated-row claim: a second `V2`
row with no count. -/
def exPlainRow : StandardizedRow :=
  { blankRow with NOMOR_VOYAGE := some "V2" }

/-- The field-fill example's first row:
`{NOMOR_VOYAGE:"V1", TANGGAL:"2024-01-01", PELABUHAN_MUAT:null}`. -/
def exFillRow1 : StandardizedRow :=
  { blankRow with
    NOMOR_VOYAGE := some "V1"
    TANGGAL := some "2024-01-01" }

/-- The field-fill example's second row:
`{NOMOR_VOYAGE:"V1", TANGGAL:null, PELABUHAN_MUAT:"A"}`. -/
def exFillRow2 : StandardizedRow :=
  { blankRow with
    NOMOR_VOYAGE := some "V1"
    PELABUHAN_MUAT := some "A" }

/-- The record the field-fill example produces. -/
def exFillRecord : VoyageRecord :=
  { TANGGAL := "2024-01-01", NOMOR_VOYAGE := "V1", PELABUHAN_MUAT := "A"
    PELABUHAN_BONGKAR := "N/A", LAMA_PELAYARAN := "N/A", JUMLAH_PENUMPANG := 2 }

/-- A row for the exclusion example whose voyage id is the placeholder. -/
def exNARow : StandardizedRow :=
  { blankRow with
    NOMOR_VOYAGE := some "N/A"
    TANGGAL := some "2024-03-03" }

/-- A row with voyage id `VA` for the exclusion example. -/
def exRowVA : StandardizedRow :=
  { blankRow with NOMOR_VOYAGE := some "VA" }

/-- A row with voyage id `VB` for the exclusion example. -/
def exRowVB : StandardizedRow :=
  { blankRow with NOMOR_VOYAGE := some "VB" }

/-- A row whose only usable field is the voyage id `V9`; all shared fields
are absent. -/
def exRowV9 : StandardizedRow :=
  { blankRow with NOMOR_VOYAGE := some "V9" }

/-- The record produced for `exRowV9` alone: every missing string field is
emitted as the placeholder. -/
def exRecordV9 : VoyageRecord :=
  { TANGGAL := "N/A", NOMOR_VOYAGE := "V9", PELABUHAN_MUAT := "N/A"
    PELABUHAN_BONGKAR := "N/A", LAMA_PELAYARAN := "N/A", JUMLAH_PENUMPANG := 1 }

/-- The record the two `V2` rows produce: their explicit count of 45 is
ignored and the group is counted instead. -/
def exCountRecord : VoyageRecord :=
  { TANGGAL := "N/A", NOMOR_VOYAGE := "V2", PELABUHAN_MUAT := "N/A"
    PELABUHAN_BONGKAR := "N/A", LAMA_PELAYARAN := "N/A", JUMLAH_PENUMPANG := 2 }

/-! ## Lemmas about chunk partitioning -/

theorem chunksOf_nil (K : Nat) : chunksOf K ([] : List α) = [] := by
  rw [chunksOf]

theorem chunksOf_cons (K : Nat) (x : α) (xs : List α) :
    chunksOf K (x :: xs) = (x :: xs.take (K - 1)) :: chunksOf K (xs.drop (K - 1)) := by
  rw [chunksOf]

theorem chunksOf_flatten_aux (K : Nat) :
    ∀ (n : Nat) (l : List α), l.length ≤ n → (chunksOf K l).flatten = l := by
  intro n
  induction n with
  | zero =>
    intro l h
    have hl : l = [] := List.length_eq_zero.mp (Nat.le_zero.mp h)
    subst hl
    simp [chunksOf_nil]
  | succ n ih =>
    intro l h
    cases l with
    | nil => simp [chunksOf_nil]
    | cons x xs =>
      rw [chunksOf_cons, List.flatten_cons,
        ih (xs.drop (K - 1)) (by simp only [List.length_drop]; simp at h; omega)]
      simp [List.take_append_drop]

theorem chunksOf_flatten (K : Nat) (l : List α) : (chunksOf K l).flatten = l :=
  chunksOf_flatten_aux K l.length l le_rfl

theorem chunksOf_length_aux (K : Nat) (hK : 1 ≤ K) :
    ∀ (n : Nat) (l : List α), l.length ≤ n →
      (chunksOf K l).length = (l.length + K - 1) / K := by
  intro n
  induction n with
  | zero =>
    intro l h
    have hl : l = [] := List.length_eq_zero.mp (Nat.le_zero.mp h)
    subst hl
    have hlt : K - 1 < K := by omega
    simp [chunksOf_nil, Nat.div_eq_of_lt hlt]
  | succ n ih =>
    intro l h
    cases l with
    | nil =>
      have hlt : K - 1 < K := by omega
      simp [chunksOf_nil, Nat.div_eq_of_lt hlt]
    | cons x xs =>
      rw [chunksOf_cons, List.length_cons,
        ih (xs.drop (K - 1)) (by simp only [List.length_drop]; simp at h; omega)]
      rw [List.length_drop, List.length_cons]
      by_cases hc : K - 1 ≤ xs.length
      · have e : xs.length - (K - 1) + K - 1 = xs.length := by omega
        have e2 : xs.length + 1 + K - 1 = xs.length + K := by omega
        rw [e, e2, Nat.add_div_right _ (by omega : 0 < K)]
      · have e : xs.length - (K - 1) + K - 1 < K := by omega
        have e2 : xs.length + 1 + K - 1 = xs.length + K := by omega
        rw [Nat.div_eq_of_lt e, e2,
          Nat.div_eq_of_lt_le (by omega : 1 * K ≤ xs.length + K)
            (by omega : xs.length + K < (1 + 1) * K)]

theorem chunksOf_length (K : Nat) (hK : 1 ≤ K) (l : List α) :
    (chunksOf K l).length = (l.length + K - 1) / K :=
  chunksOf_length_aux K hK l.length l le_rfl

theorem chunksOf_sizes_aux (K : Nat) (hK : 1 ≤ K) :
    ∀ (n : Nat) (l : List α), l.length ≤ n →
      ∀ c ∈ chunksOf K l, c.length ≤ K := by
  intro n
  induction n with
  | zero =>
    intro l h
    have hl : l = [] := List.length_eq_zero.mp (Nat.le_zero.mp h)
    subst hl
    simp [chunksOf_nil]
  | succ n ih =>
    intro l h
    cases l with
    | nil => simp [chunksOf_nil]
    | cons x xs =>
      rw [chunksOf_cons]
      intro c hc
      rcases List.mem_cons.mp hc with hc | hc
      · subst hc
        have := List.length_take (K - 1) xs
        simp only [List.length_cons, this]
        omega
      · exact ih (xs.drop (K - 1))
          (by simp only [List.length_drop]; simp at h; omega) c hc

theorem chunksOf_sizes (K : Nat) (hK : 1 ≤ K) (l : List α) :
    ∀ c ∈ chunksOf K l, c.length ≤ K :=
  chunksOf_sizes_aux K hK l.length l le_rfl

/-! ## Lemmas about chunk processing -/

theorem processChunks_eq (cs : List (ExtractorOutcome ρ)) :
    processChunks cs = ((cs.map chunkContribution).flatten, cs.length) := by
  induction cs with
  | nil => rfl
  | cons c cs ih => simp [processChunks, ih]

theorem chunkContribution_of_isFailure {o : ExtractorOutcome ρ}
    (h : isFailure o = true) : chunkContribution o = [] := by
  cases o <;> simp_all [isFailure, chunkContribution]

theorem contributions_length_le (f : List ρ → ExtractorOutcome σ) :
    ∀ cs : List (List ρ),
      (∀ c ∈ cs, (chunkContribution (f c)).length ≤ c.length) →
      ((cs.map (fun c => chunkContribution (f c))).flatten).length ≤ cs.flatten.length := by
  intro cs
  induction cs with
  | nil => simp
  | cons c cs ih =>
    intro h
    simp only [List.map_cons, List.flatten_cons, List.length_append]
    have h1 := h c (by simp)
    have h2 := ih (fun d hd => h d (by simp [hd]))
    omega

/-! ## Lemmas about voyage aggregation -/

theorem usableVoyageId_spec {r : StandardizedRow} {v : String}
    (h : usableVoyageId r = some v) :
    r.NOMOR_VOYAGE = some v ∧ v ≠ "N/A" ∧ v ≠ "" := by
  unfold usableVoyageId at h
  cases hn : r.NOMOR_VOYAGE with
  | none => rw [hn] at h; exact absurd h (by simp)
  | some s =>
    rw [hn] at h
    by_cases hs : s = "" ∨ s = "N/A"
    · simp [hs] at h
    · simp only [hs, if_false, Option.some.injEq] at h
      subst h
      push_neg at hs
      exact ⟨rfl, hs.2, hs.1⟩

theorem alFind_mapUpdate_self (v : String) (row : StandardizedRow) :
    ∀ m, alFind v (mapUpdate v row m)
      = some (updateRecord ((alFind v m).getD (initRecord v row)) row) := by
  intro m
  induction m with
  | nil => simp [mapUpdate, alFind]
  | cons p rest ih =>
    obtain ⟨k, rec⟩ := p
    by_cases hk : k = v
    · subst hk
      simp [mapUpdate, alFind]
    · simp [mapUpdate, alFind, hk, ih]

theorem alFind_mapUpdate_other {v w : String} (hwv : w ≠ v)
    (row : StandardizedRow) :
    ∀ m, alFind w (mapUpdate v row m) = alFind w m := by
  have hvw : v ≠ w := Ne.symm hwv
  intro m
  induction m with
  | nil => simp [mapUpdate, alFind, hvw]
  | cons p rest ih =>
    obtain ⟨k, rec⟩ := p
    by_cases hk : k = v
    · subst hk
      simp [mapUpdate, alFind, hvw]
    · simp [mapUpdate, alFind, hk, ih]

theorem alFind_applyRow (w : String) (m : List (String × VoyageRecord))
    (row : StandardizedRow) :
    alFind w (applyRow m row)
      = if usableVoyageId row = some w
        then some (updateRecord ((alFind w m).getD (initRecord w row)) row)
        else alFind w m := by
  unfold applyRow
  cases hu : usableVoyageId row with
  | none => simp
  | some v =>
    by_cases hv : v = w
    · subst hv
      simp [alFind_mapUpdate_self]
    · simp [hv, alFind_mapUpdate_other (Ne.symm hv)]

theorem groupAcc_cons_step (v : String) (cur : Option VoyageRecord)
    (r : StandardizedRow) (g : List StandardizedRow) :
    groupAcc v cur (r :: g)
      = groupAcc v (some (updateRecord (cur.getD (initRecord v r)) r)) g := by
  simp [groupAcc]

theorem alFind_foldl (w : String) :
    ∀ (rows : List StandardizedRow) (m : List (String × VoyageRecord)),
      alFind w (rows.foldl applyRow m)
        = groupAcc w (alFind w m) (voyageGroup rows w) := by
  intro rows
  induction rows with
  | nil =>
    intro m
    simp [voyageGroup, groupAcc]
  | cons r rs ih =>
    intro m
    rw [List.foldl_cons, ih]
    unfold voyageGroup
    by_cases hu : usableVoyageId r = some w
    · rw [List.filter_cons_of_pos (by simp [hu])]
      rw [alFind_applyRow, if_pos hu, groupAcc_cons_step]
    · rw [List.filter_cons_of_neg (by simp [hu])]
      rw [alFind_applyRow, if_neg hu]

theorem groupAcc_some (v : String) :
    ∀ (g : List StandardizedRow) (rec : VoyageRecord),
      groupAcc v (some rec) g = some (g.foldl updateRecord rec) := by
  intro g
  induction g with
  | nil => intro rec; rfl
  | cons r g ih =>
    intro rec
    rw [groupAcc_cons_step, List.foldl_cons]
    simp only [Option.getD_some]
    exact ih (updateRecord rec r)

theorem groupAcc_cons (v : String) (x : StandardizedRow)
    (xs : List StandardizedRow) :
    groupAcc v none (x :: xs)
      = some (xs.foldl updateRecord (updateRecord (initRecord v x) x)) := by
  rw [groupAcc_cons_step]
  simp only [Option.getD_none]
  exact groupAcc_some v xs _

theorem groupAcc_none_nil (v : String) (g : List StandardizedRow)
    (h : groupAcc v none g = none) : g = [] := by
  cases g with
  | nil => rfl
  | cons x xs => rw [groupAcc_cons] at h; exact absurd h (by simp)

theorem foldl_update_count :
    ∀ (g : List StandardizedRow) (rec : VoyageRecord),
      (g.foldl updateRecord rec).JUMLAH_PENUMPANG
        = rec.JUMLAH_PENUMPANG + g.length := by
  intro g
  induction g with
  | nil => intro rec; simp
  | cons r g ih =>
    intro rec
    rw [List.foldl_cons, ih]
    simp [updateRecord]
    omega

theorem foldl_update_vid :
    ∀ (g : List StandardizedRow) (rec : VoyageRecord),
      (g.foldl updateRecord rec).NOMOR_VOYAGE = rec.NOMOR_VOYAGE := by
  intro g
  induction g with
  | nil => intro rec; rfl
  | cons r g ih =>
    intro rec
    rw [List.foldl_cons, ih]
    simp [updateRecord]

theorem foldl_update_tanggal :
    ∀ (g : List StandardizedRow) (rec : VoyageRecord),
      (g.foldl updateRecord rec).TANGGAL
        = (g.map (fun r => r.TANGGAL)).foldl fillField rec.TANGGAL := by
  intro g
  induction g with
  | nil => intro rec; rfl
  | cons r g ih =>
    intro rec
    rw [List.foldl_cons, ih, List.map_cons, List.foldl_cons]
    simp [updateRecord]

theorem foldl_update_muat :
    ∀ (g : List StandardizedRow) (rec : VoyageRecord),
      (g.foldl updateRecord rec).PELABUHAN_MUAT
        = (g.map (fun r => r.PELABUHAN_MUAT)).foldl fillField rec.PELABUHAN_MUAT := by
  intro g
  induction g with
  | nil => intro rec; rfl
  | cons r g ih =>
    intro rec
    rw [List.foldl_cons, ih, List.map_cons, List.foldl_cons]
    simp [updateRecord]

theorem foldl_update_bongkar :
    ∀ (g : List StandardizedRow) (rec : VoyageRecord),
      (g.foldl updateRecord rec).PELABUHAN_BONGKAR
        = (g.map (fun r => r.PELABUHAN_BONGKAR)).foldl fillField rec.PELABUHAN_BONGKAR := by
  intro g
  induction g with
  | nil => intro rec; rfl
  | cons r g ih =>
    intro rec
    rw [List.foldl_cons, ih, List.map_cons, List.foldl_cons]
    simp [updateRecord]

theorem foldl_update_lama :
    ∀ (g : List StandardizedRow) (rec : VoyageRecord),
      (g.foldl updateRecord rec).LAMA_PELAYARAN
        = (g.map (fun r => r.LAMA_PELAYARAN)).foldl fillField rec.LAMA_PELAYARAN := by
  intro g
  induction g with
  | nil => intro rec; rfl
  | cons r g ih =>
    intro rec
    rw [List.foldl_cons, ih, List.map_cons, List.foldl_cons]
    simp [updateRecord]

theorem foldl_fill_char :
    ∀ (vals : List (Option String)) (cur : String),
      vals.foldl fillField cur
        = if cur = "N/A" then firstPresent vals else cur := by
  intro vals
  induction vals with
  | nil =>
    intro cur
    by_cases h : cur = "N/A" <;> simp [firstPresent, h]
  | cons v vs ih =>
    intro cur
    rw [List.foldl_cons, ih]
    by_cases hc : cur = "N/A"
    · subst hc
      cases v with
      | none => simp [fillField, jsTruthy, firstPresent, presentValue]
      | some s =>
        by_cases hs : s = ""
        · simp [fillField, jsTruthy, hs, firstPresent, presentValue]
        · by_cases hna : s = "N/A"
          · subst hna
            simp [fillField, jsTruthy, firstPresent, presentValue, hs]
          · simp [fillField, jsTruthy, hs, hna, firstPresent, presentValue]
    · simp [fillField, hc, firstPresent]

theorem fillField_orNA (v : Option String) : fillField (orNA v) v = orNA v := by
  cases v with
  | none => simp [fillField, orNA, jsTruthy]
  | some s =>
    by_cases hs : s = "" <;> by_cases hna : s = "N/A" <;>
      simp_all [fillField, orNA, jsTruthy]

theorem fill_head_char (w : Option String) (vs : List (Option String)) :
    (if orNA w = "N/A" then firstPresent vs else orNA w)
      = firstPresent (w :: vs) := by
  cases w with
  | none => simp [orNA, firstPresent, presentValue]
  | some s =>
    by_cases hs : s = "" <;> by_cases hna : s = "N/A" <;>
      simp_all [orNA, firstPresent, presentValue]

theorem groupAcc_cons_spec (v : String) (x : StandardizedRow)
    (xs : List StandardizedRow) :
    groupAcc v none (x :: xs) = some
      { TANGGAL := firstPresent ((x :: xs).map (fun r => r.TANGGAL))
        NOMOR_VOYAGE := v
        PELABUHAN_MUAT := firstPresent ((x :: xs).map (fun r => r.PELABUHAN_MUAT))
        PELABUHAN_BONGKAR := firstPresent ((x :: xs).map (fun r => r.PELABUHAN_BONGKAR))
        LAMA_PELAYARAN := firstPresent ((x :: xs).map (fun r => r.LAMA_PELAYARAN))
        JUMLAH_PENUMPANG := (x :: xs).length } := by
  rw [groupAcc_cons]
  congr 1
  have h0t : (updateRecord (initRecord v x) x).TANGGAL = orNA x.TANGGAL := by
    simp [updateRecord, initRecord, fillField_orNA]
  have h0m : (updateRecord (initRecord v x) x).PELABUHAN_MUAT = orNA x.PELABUHAN_MUAT := by
    simp [updateRecord, initRecord, fillField_orNA]
  have h0b : (updateRecord (initRecord v x) x).PELABUHAN_BONGKAR = orNA x.PELABUHAN_BONGKAR := by
    simp [updateRecord, initRecord, fillField_orNA]
  have h0l : (updateRecord (initRecord v x) x).LAMA_PELAYARAN = orNA x.LAMA_PELAYARAN := by
    simp [updateRecord, initRecord, fillField_orNA]
  have h0v : (updateRecord (initRecord v x) x).NOMOR_VOYAGE = v := by
    simp [updateRecord, initRecord]
  have h0c : (updateRecord (initRecord v x) x).JUMLAH_PENUMPANG = 1 := by
    simp [updateRecord, initRecord]
  refine VoyageRecord.ext ?_ ?_ ?_ ?_ ?_ ?_
  · rw [foldl_update_tanggal, h0t, foldl_fill_char]
    simpa using fill_head_char x.TANGGAL (xs.map (fun r => r.TANGGAL))
  · rw [foldl_update_vid, h0v]
  · rw [foldl_update_muat, h0m, foldl_fill_char]
    simpa using fill_head_char x.PELABUHAN_MUAT (xs.map (fun r => r.PELABUHAN_MUAT))
  · rw [foldl_update_bongkar, h0b, foldl_fill_char]
    simpa using fill_head_char x.PELABUHAN_BONGKAR (xs.map (fun r => r.PELABUHAN_BONGKAR))
  · rw [foldl_update_lama, h0l, foldl_fill_char]
    simpa using fill_head_char x.LAMA_PELAYARAN (xs.map (fun r => r.LAMA_PELAYARAN))
  · rw [foldl_update_count, h0c]
    simp [List.length_cons]
    omega

theorem alKeys_mapUpdate (v : String) (row : StandardizedRow) :
    ∀ m, alKeys (mapUpdate v row m)
      = if v ∈ alKeys m then alKeys m else alKeys m ++ [v] := by
  intro m
  induction m with
  | nil => simp [mapUpdate, alKeys]
  | cons p rest ih =>
    obtain ⟨k, rec⟩ := p
    by_cases hk : k = v
    · subst hk
      simp [mapUpdate, alKeys]
    · have hvk : ¬v = k := fun h => hk h.symm
      simp only [mapUpdate, if_neg hk, alKeys, List.map_cons] at *
      rw [ih]
      by_cases hv : v ∈ List.map Prod.fst rest <;>
        simp [hv, hvk, List.mem_cons]

theorem alKeys_nodup_applyRow (row : StandardizedRow)
    (m : List (String × VoyageRecord)) (h : (alKeys m).Nodup) :
    (alKeys (applyRow m row)).Nodup := by
  unfold applyRow
  cases hu : usableVoyageId row with
  | none => exact h
  | some v =>
    rw [alKeys_mapUpdate]
    by_cases hv : v ∈ alKeys m
    · simp [hv, h]
    · simp only [hv, if_false]
      exact List.nodup_append.mpr
        ⟨h, List.nodup_singleton v, List.disjoint_singleton.mpr hv⟩

theorem alKeys_nodup_foldl :
    ∀ (rows : List StandardizedRow) (m : List (String × VoyageRecord)),
      (alKeys m).Nodup → (alKeys (rows.foldl applyRow m)).Nodup := by
  intro rows
  induction rows with
  | nil => intro m h; exact h
  | cons r rs ih =>
    intro m h
    rw [List.foldl_cons]
    exact ih _ (alKeys_nodup_applyRow r m h)

theorem coherent_mapUpdate (v : String) (row : StandardizedRow) :
    ∀ m, (∀ p ∈ m, (Prod.snd p).NOMOR_VOYAGE = p.1) →
      ∀ p ∈ mapUpdate v row m, (Prod.snd p).NOMOR_VOYAGE = p.1 := by
  intro m
  induction m with
  | nil =>
    intro _ p hp
    simp only [mapUpdate, List.mem_singleton] at hp
    subst hp
    simp [updateRecord, initRecord]
  | cons q rest ih =>
    obtain ⟨k, rec⟩ := q
    intro h p hp
    have heq : mapUpdate v row ((k, rec) :: rest)
        = if k = v then (k, updateRecord rec row) :: rest
          else (k, rec) :: mapUpdate v row rest := rfl
    by_cases hk : k = v
    · rw [heq, if_pos hk] at hp
      rcases List.mem_cons.mp hp with hp1 | hp1
      · subst hp1
        have hh := h (k, rec) (List.mem_cons_self _ _)
        simpa [updateRecord] using hh
      · exact h p (List.mem_cons_of_mem _ hp1)
    · rw [heq, if_neg hk] at hp
      rcases List.mem_cons.mp hp with hp1 | hp1
      · subst hp1
        exact h (k, rec) (List.mem_cons_self _ _)
      · exact ih (fun q hq => h q (List.mem_cons_of_mem _ hq)) p hp1

theorem coherent_foldl :
    ∀ (rows : List StandardizedRow) (m : List (String × VoyageRecord)),
      (∀ p ∈ m, (Prod.snd p).NOMOR_VOYAGE = p.1) →
      ∀ p ∈ rows.foldl applyRow m, (Prod.snd p).NOMOR_VOYAGE = p.1 := by
  intro rows
  induction rows with
  | nil => intro m h; exact h
  | cons r rs ih =>
    intro m h
    rw [List.foldl_cons]
    refine ih _ ?_
    unfold applyRow
    cases hu : usableVoyageId r with
    | none => exact h
    | some v => exact coherent_mapUpdate v r m h

theorem alFind_eq_some_of_mem :
    ∀ (m : List (String × VoyageRecord)) (v : String) (rec : VoyageRecord),
      (alKeys m).Nodup → (v, rec) ∈ m → alFind v m = some rec := by
  intro m
  induction m with
  | nil => intro v rec _ h; simp at h
  | cons q rest ih =>
    obtain ⟨k, r⟩ := q
    intro v rec hn hmem
    rcases List.mem_cons.mp hmem with hq | hq
    · rw [Prod.mk.injEq] at hq
      obtain ⟨h1, h2⟩ := hq
      subst h1
      subst h2
      simp [alFind]
    · have hk : k ≠ v := by
        intro hk
        subst hk
        have hmemk : k ∈ alKeys rest :=
          List.mem_map.mpr ⟨(k, rec), hq, rfl⟩
        simp only [alKeys, List.map_cons, List.nodup_cons] at hn
        exact hn.1 hmemk
      simp only [alFind, if_neg hk]
      refine ih v rec ?_ hq
      simp only [alKeys, List.map_cons, List.nodup_cons] at hn
      exact hn.2

theorem mem_of_alFind_eq_some :
    ∀ (m : List (String × VoyageRecord)) (v : String) (rec : VoyageRecord),
      alFind v m = some rec → (v, rec) ∈ m := by
  intro m
  induction m with
  | nil => intro v rec h; simp [alFind] at h
  | cons q rest ih =>
    obtain ⟨k, r⟩ := q
    intro v rec h
    by_cases hk : k = v
    · subst hk
      simp [alFind] at h
      subst h
      exact List.mem_cons_self _ _
    · simp only [alFind, if_neg hk] at h
      exact List.mem_cons.mpr (Or.inr (ih v rec h))

theorem aggregate_mem_iff (rows : List StandardizedRow) (rec : VoyageRecord) :
    rec ∈ aggregateVoyages rows ↔
      groupAcc rec.NOMOR_VOYAGE none (voyageGroup rows rec.NOMOR_VOYAGE)
        = some rec := by
  unfold aggregateVoyages
  constructor
  · intro hmem
    obtain ⟨p, hp, hsnd⟩ := List.mem_map.mp hmem
    obtain ⟨k, r⟩ := p
    have hco := coherent_foldl rows [] (by simp) (k, r) hp
    simp only at hsnd
    subst hsnd
    simp only at hco
    subst hco
    have hn := alKeys_nodup_foldl rows [] (by simp [alKeys])
    have hfind := alFind_eq_some_of_mem _ _ _ hn hp
    rw [alFind_foldl] at hfind
    simpa [alFind] using hfind
  · intro hacc
    have hfind : alFind rec.NOMOR_VOYAGE (rows.foldl applyRow [])
        = some rec := by
      rw [alFind_foldl]
      simpa [alFind] using hacc
    exact List.mem_map.mpr ⟨_, mem_of_alFind_eq_some _ _ _ hfind, rfl⟩

theorem aggregate_rec_spec (rows : List StandardizedRow) (rec : VoyageRecord)
    (hmem : rec ∈ aggregateVoyages rows) :
    voyageGroup rows rec.NOMOR_VOYAGE ≠ []
    ∧ rec.JUMLAH_PENUMPANG = (voyageGroup rows rec.NOMOR_VOYAGE).length
    ∧ rec.TANGGAL
        = firstPresent ((voyageGroup rows rec.NOMOR_VOYAGE).map (fun r => r.TANGGAL))
    ∧ rec.PELABUHAN_MUAT
        = firstPresent ((voyageGroup rows rec.NOMOR_VOYAGE).map (fun r => r.PELABUHAN_MUAT))
    ∧ rec.PELABUHAN_BONGKAR
        = firstPresent ((voyageGroup rows rec.NOMOR_VOYAGE).map (fun r => r.PELABUHAN_BONGKAR))
    ∧ rec.LAMA_PELAYARAN
        = firstPresent ((voyageGroup rows rec.NOMOR_VOYAGE).map (fun r => r.LAMA_PELAYARAN)) := by
  have hacc := (aggregate_mem_iff rows rec).mp hmem
  cases hg : voyageGroup rows rec.NOMOR_VOYAGE with
  | nil =>
    rw [hg] at hacc
    exact absurd hacc (by simp [groupAcc])
  | cons x xs =>
    rw [hg] at hacc
    have hrec : rec
        = { TANGGAL := firstPresent ((x :: xs).map (fun r => r.TANGGAL))
            NOMOR_VOYAGE := rec.NOMOR_VOYAGE
            PELABUHAN_MUAT := firstPresent ((x :: xs).map (fun r => r.PELABUHAN_MUAT))
            PELABUHAN_BONGKAR := firstPresent ((x :: xs).map (fun r => r.PELABUHAN_BONGKAR))
            LAMA_PELAYARAN := firstPresent ((x :: xs).map (fun r => r.LAMA_PELAYARAN))
            JUMLAH_PENUMPANG := (x :: xs).length } :=
      Option.some.inj ((groupAcc_cons_spec rec.NOMOR_VOYAGE x xs).symm.trans hacc) |>.symm
    refine ⟨by simp, ?_, ?_, ?_, ?_, ?_⟩ <;>
      · conv_lhs => rw [hrec]

theorem aggregate_exists_of_group (rows : List StandardizedRow) (v : String)
    (x : StandardizedRow) (xs : List StandardizedRow)
    (hg : voyageGroup rows v = x :: xs) :
    ∃ rec ∈ aggregateVoyages rows, rec.NOMOR_VOYAGE = v := by
  refine ⟨{ TANGGAL := firstPresent ((x :: xs).map (fun r => r.TANGGAL))
            NOMOR_VOYAGE := v
            PELABUHAN_MUAT := firstPresent ((x :: xs).map (fun r => r.PELABUHAN_MUAT))
            PELABUHAN_BONGKAR := firstPresent ((x :: xs).map (fun r => r.PELABUHAN_BONGKAR))
            LAMA_PELAYARAN := firstPresent ((x :: xs).map (fun r => r.LAMA_PELAYARAN))
            JUMLAH_PENUMPANG := (x :: xs).length }, ?_, rfl⟩
  rw [aggregate_mem_iff]
  show groupAcc v none (voyageGroup rows v) = _
  rw [hg]
  exact groupAcc_cons_spec v x xs

theorem aggregate_id_usable (rows : List StandardizedRow) (rec : VoyageRecord)
    (hmem : rec ∈ aggregateVoyages rows) :
    ∃ r ∈ rows, usableVoyageId r = some rec.NOMOR_VOYAGE := by
  have h := (aggregate_rec_spec rows rec hmem).1
  cases hg : voyageGroup rows rec.NOMOR_VOYAGE with
  | nil => exact absurd hg h
  | cons x xs =>
    have hx : x ∈ voyageGroup rows rec.NOMOR_VOYAGE := by rw [hg]; simp
    unfold voyageGroup at hx
    have hfx := List.mem_filter.mp hx
    exact ⟨x, hfx.1, by simpa using hfx.2⟩

theorem aggregate_ids_nodup (rows : List StandardizedRow) :
    ((aggregateVoyages rows).map (fun rec => rec.NOMOR_VOYAGE)).Nodup := by
  unfold aggregateVoyages
  rw [List.map_map]
  have hco := coherent_foldl rows [] (by simp)
  have hmapeq : (rows.foldl applyRow []).map
        ((fun rec => rec.NOMOR_VOYAGE) ∘ Prod.snd)
      = alKeys (rows.foldl applyRow []) := by
    unfold alKeys
    exact List.map_congr_left (fun p hp => hco p hp)
  rw [hmapeq]
  exact alKeys_nodup_foldl rows [] (by simp [alKeys])

theorem applyRow_skip {r : StandardizedRow} (m : List (String × VoyageRecord))
    (h : usableVoyageId r = none) : applyRow m r = m := by
  unfold applyRow
  rw [h]

theorem aggregate_erase_unusable (pre post : List StandardizedRow)
    (r : StandardizedRow) (h : usableVoyageId r = none) :
    aggregateVoyages (pre ++ r :: post) = aggregateVoyages (pre ++ post) := by
  unfold aggregateVoyages
  rw [List.foldl_append, List.foldl_append, List.foldl_cons, applyRow_skip _ h]

theorem mapUpdate_clearCount (v : String) (r : StandardizedRow) :
    ∀ m, mapUpdate v (clearCount r) m = mapUpdate v r m := by
  intro m
  induction m with
  | nil => rfl
  | cons q rest ih =>
    obtain ⟨k, rec⟩ := q
    have heq1 : mapUpdate v (clearCount r) ((k, rec) :: rest)
        = if k = v then (k, updateRecord rec (clearCount r)) :: rest
          else (k, rec) :: mapUpdate v (clearCount r) rest := rfl
    have heq2 : mapUpdate v r ((k, rec) :: rest)
        = if k = v then (k, updateRecord rec r) :: rest
          else (k, rec) :: mapUpdate v r rest := rfl
    rw [heq1, heq2, ih]
    have hupd : updateRecord rec (clearCount r) = updateRecord rec r := rfl
    rw [hupd]

theorem applyRow_clearCount (m : List (String × VoyageRecord))
    (r : StandardizedRow) : applyRow m (clearCount r) = applyRow m r := by
  unfold applyRow
  have hu : usableVoyageId (clearCount r) = usableVoyageId r := rfl
  rw [hu]
  cases usableVoyageId r with
  | none => rfl
  | some v => exact mapUpdate_clearCount v r m

theorem aggregate_clearCount (rows : List StandardizedRow) :
    aggregateVoyages (rows.map clearCount) = aggregateVoyages rows := by
  unfold aggregateVoyages
  rw [List.foldl_map]
  have hstep : (fun (m : List (String × VoyageRecord)) r =>
      applyRow m (clearCount r)) = applyRow := by
    funext m r
    exact applyRow_clearCount m r
  rw [hstep]

theorem firstPresent_of_all_absent :
    ∀ vals : List (Option String),
      (∀ v ∈ vals, presentValue v = false) → firstPresent vals = "N/A" := by
  intro vals
  induction vals with
  | nil => intro _; rfl
  | cons v vs ih =>
    intro h
    have hv := h v (by simp)
    simp only [firstPresent, hv, Bool.false_eq_true, if_false]
    exact ih (fun w hw => h w (by simp [hw]))

/-! ## Claim theorems -/

/-- C1, counterexample: the claim says two non-pre-aggregated rows are merged
into one VoyageRecord only if they agree on NOMOR_VOYAGE, TANGGAL,
PELABUHAN_MUAT and PELABUHAN_BONGKAR.  `exKeyRow1` and `exKeyRow2` share
NOMOR_VOYAGE `V1` but disagree on TANGGAL, yet `aggregateVoyages` merges
them into a single record counting both rows, so the grouping key is not
the four-field compound key. -/
theorem claim_C1_counterexample :
    exKeyRow1.TANGGAL ≠ exKeyRow2.TANGGAL
    ∧ (aggregateVoyages [exKeyRow1, exKeyRow2]).length = 1
    ∧ ∀ rec ∈ aggregateVoyages [exKeyRow1, exKeyRow2],
        rec.JUMLAH_PENUMPANG = 2 := by
  decide

/-- C1, amended: Voyage Aggregation groups rows under the key NOMOR_VOYAGE
alone: the output voyage ids are pairwise distinct (at most one record per
distinct NOMOR_VOYAGE), and a record with id `v` exists exactly when some
input row has usable voyage id `v` — so rows merge if and only if they
agree on NOMOR_VOYAGE. -/
theorem claim_C1_amended (rows : List StandardizedRow) :
    ((aggregateVoyages rows).map (fun rec => rec.NOMOR_VOYAGE)).Nodup
    ∧ ∀ v : String,
        (∃ rec ∈ aggregateVoyages rows, rec.NOMOR_VOYAGE = v)
        ↔ ∃ r ∈ rows, usableVoyageId r = some v := by
  refine ⟨aggregate_ids_nodup rows, fun v => ⟨?_, ?_⟩⟩
  · rintro ⟨rec, hmem, hv⟩
    subst hv
    exact aggregate_id_usable rows rec hmem
  · rintro ⟨r, hr, hu⟩
    have hrg : r ∈ voyageGroup rows v := by
      unfold voyageGroup
      exact List.mem_filter.mpr ⟨hr, by simp [hu]⟩
    cases hg : voyageGroup rows v with
    | nil => rw [hg] at hrg; simp at hrg
    | cons x xs => exact aggregate_exists_of_group rows v x xs hg

/-- C1, witness for the amended theorem at the concrete two-row input. -/
theorem claim_C1_amended_witness :
    ((aggregateVoyages [exKeyRow1, exKeyRow2]).map
        (fun rec => rec.NOMOR_VOYAGE)).Nodup
    ∧ ∀ v : String,
        (∃ rec ∈ aggregateVoyages [exKeyRow1, exKeyRow2], rec.NOMOR_VOYAGE = v)
        ↔ ∃ r ∈ [exKeyRow1, exKeyRow2], usableVoyageId r = some v :=
  claim_C1_amended [exKeyRow1, exKeyRow2]

/-- C2, counterexample: the claim says a row carrying a positive
JUMLAH_PENUMPANG is a pre-aggregated singleton whose record keeps that
count (45).  In the code the count field of input rows is never read:
the `V2` row with count 45 is merged with the other `V2` row and the
single resulting record counts 2 rows. -/
theorem claim_C2_counterexample :
    exCountRow.JUMLAH_PENUMPANG = some 45
    ∧ (aggregateVoyages [exCountRow, exPlainRow]).length = 1
    ∧ ∀ rec ∈ aggregateVoyages [exCountRow, exPlainRow],
        rec.JUMLAH_PENUMPANG = 2 := by
  decide

/-- C2, amended: aggregation ignores any JUMLAH_PENUMPANG carried by input
rows entirely (erasing the field from every row leaves the output
unchanged); such rows merge by NOMOR_VOYAGE like any other, and every
record's JUMLAH_PENUMPANG is its group's row count. -/
theorem claim_C2_amended :
    (∀ rows : List StandardizedRow,
        aggregateVoyages (rows.map clearCount) = aggregateVoyages rows)
    ∧ ∀ (rows : List StandardizedRow) (rec : VoyageRecord),
        rec ∈ aggregateVoyages rows →
        rec.JUMLAH_PENUMPANG = (voyageGroup rows rec.NOMOR_VOYAGE).length :=
  ⟨aggregate_clearCount,
   fun rows rec h => (aggregate_rec_spec rows rec h).2.1⟩

/-- C2, witness for the amended theorem at the two-`V2`-row input: the
record for `V2` counts its 2 grouped rows. -/
theorem claim_C2_amended_witness :
    aggregateVoyages ([exCountRow, exPlainRow].map clearCount)
      = aggregateVoyages [exCountRow, exPlainRow]
    ∧ exCountRecord ∈ aggregateVoyages [exCountRow, exPlainRow]
    ∧ exCountRecord.JUMLAH_PENUMPANG
        = (voyageGroup [exCountRow, exPlainRow] exCountRecord.NOMOR_VOYAGE).length :=
  ⟨claim_C2_amended.1 [exCountRow, exPlainRow], by decide,
   claim_C2_amended.2 [exCountRow, exPlainRow] exCountRecord (by decide)⟩

/-- C3: for every list of N items and chunk size K ≥ 1 the partitioning
used by both the Row Extraction Stage and the Standardization Stage yields
exactly the ceiling of N/K contiguous chunks, each of size at most K, whose
concatenation in chunk-index order is the original list, and an empty list
yields zero chunks. -/
theorem claim_C3_chunking {α : Type} (K : Nat) (hK : 1 ≤ K) (l : List α) :
    (chunksOf K l).length = (l.length + K - 1) / K
    ∧ (chunksOf K l).flatten = l
    ∧ (∀ c ∈ chunksOf K l, c.length ≤ K)
    ∧ (l = [] → chunksOf K l = []) :=
  ⟨chunksOf_length K hK l, chunksOf_flatten K l, chunksOf_sizes K hK l,
   fun h => by rw [h]; exact chunksOf_nil K⟩

/-- C3, witness at K = 2 and a three-element list. -/
theorem claim_C3_chunking_witness :
    1 ≤ 2
    ∧ ((chunksOf 2 [0, 1, 2]).length = (([0, 1, 2] : List Nat).length + 2 - 1) / 2
      ∧ (chunksOf 2 [0, 1, 2]).flatten = [0, 1, 2]
      ∧ (∀ c ∈ chunksOf 2 [0, 1, 2], c.length ≤ 2)
      ∧ ([0, 1, 2] = ([] : List Nat) → chunksOf 2 ([0, 1, 2] : List Nat) = [])) :=
  ⟨by decide, claim_C3_chunking 2 (by decide) [0, 1, 2]⟩

/-- C4: a failed chunk (thrown call, or unparseable / non-array response)
contributes exactly zero rows while every other chunk's rows are kept
unchanged in chunk order, and the completed-work-unit counter is still
incremented exactly once for the failed chunk, giving a total count equal
to the number of chunks. -/
theorem claim_C4_isolation {ρ : Type} (pre post : List (ExtractorOutcome ρ))
    (f : ExtractorOutcome ρ) (hf : isFailure f = true) :
    processChunks (pre ++ f :: post)
      = ((pre.map chunkContribution).flatten
          ++ (post.map chunkContribution).flatten,
         pre.length + 1 + post.length) := by
  rw [processChunks_eq, List.map_append, List.map_cons,
    chunkContribution_of_isFailure hf]
  simp only [List.flatten_append, List.flatten_cons, List.nil_append,
    List.length_append, List.length_cons, Prod.mk.injEq]
  exact ⟨trivial, by omega⟩

/-- C4, witness: 3 chunks where chunk 2 throws yield the rows of chunks 1
and 3 only, and a completed count of 3. -/
theorem claim_C4_isolation_witness :
    isFailure (ExtractorOutcome.thrown : ExtractorOutcome Nat) = true
    ∧ processChunks [ExtractorOutcome.arrayOf [1], ExtractorOutcome.thrown,
        ExtractorOutcome.arrayOf [2, 3]] = ([1, 2, 3], 3) :=
  ⟨rfl, by
    have h := claim_C4_isolation [ExtractorOutcome.arrayOf [1]]
      [ExtractorOutcome.arrayOf [2, 3]] ExtractorOutcome.thrown rfl
    simpa using h⟩

/-- C5: every record's JUMLAH_PENUMPANG is its group's size, and each
shared field carries the value of the first row of the group (in append
order) that has a present value for it — where a value is present when it
is non-null and not the placeholder (the empty string is
JavaScript-falsy, hence also absent) — and in particular the two-row
example of the claim produces exactly the record with TANGGAL
`2024-01-01`, PELABUHAN_MUAT `A` and JUMLAH_PENUMPANG 2. -/
theorem claim_C5_field_fill (rows : List StandardizedRow) (rec : VoyageRecord)
    (hmem : rec ∈ aggregateVoyages rows) :
    (rec.JUMLAH_PENUMPANG = (voyageGroup rows rec.NOMOR_VOYAGE).length
    ∧ rec.TANGGAL
        = firstPresent ((voyageGroup rows rec.NOMOR_VOYAGE).map (fun r => r.TANGGAL))
    ∧ rec.PELABUHAN_MUAT
        = firstPresent ((voyageGroup rows rec.NOMOR_VOYAGE).map (fun r => r.PELABUHAN_MUAT))
    ∧ rec.PELABUHAN_BONGKAR
        = firstPresent ((voyageGroup rows rec.NOMOR_VOYAGE).map (fun r => r.PELABUHAN_BONGKAR))
    ∧ rec.LAMA_PELAYARAN
        = firstPresent ((voyageGroup rows rec.NOMOR_VOYAGE).map (fun r => r.LAMA_PELAYARAN)))
    ∧ aggregateVoyages [exFillRow1, exFillRow2] = [exFillRecord] :=
  ⟨(aggregate_rec_spec rows rec hmem).2, by decide⟩

/-- C5, witness at the claim's concrete two-row example. -/
theorem claim_C5_field_fill_witness :
    exFillRecord ∈ aggregateVoyages [exFillRow1, exFillRow2]
    ∧ ((exFillRecord.JUMLAH_PENUMPANG
          = (voyageGroup [exFillRow1, exFillRow2] exFillRecord.NOMOR_VOYAGE).length
      ∧ exFillRecord.TANGGAL
          = firstPresent ((voyageGroup [exFillRow1, exFillRow2] exFillRecord.NOMOR_VOYAGE).map (fun r => r.TANGGAL))
      ∧ exFillRecord.PELABUHAN_MUAT
          = firstPresent ((voyageGroup [exFillRow1, exFillRow2] exFillRecord.NOMOR_VOYAGE).map (fun r => r.PELABUHAN_MUAT))
      ∧ exFillRecord.PELABUHAN_BONGKAR
          = firstPresent ((voyageGroup [exFillRow1, exFillRow2] exFillRecord.NOMOR_VOYAGE).map (fun r => r.PELABUHAN_BONGKAR))
      ∧ exFillRecord.LAMA_PELAYARAN
          = firstPresent ((voyageGroup [exFillRow1, exFillRow2] exFillRecord.NOMOR_VOYAGE).map (fun r => r.LAMA_PELAYARAN)))
      ∧ aggregateVoyages [exFillRow1, exFillRow2] = [exFillRecord]) :=
  ⟨by decide, claim_C5_field_fill [exFillRow1, exFillRow2] exFillRecord (by decide)⟩

/-- C6: a row whose NOMOR_VOYAGE is null or the literal placeholder
contributes to no VoyageRecord (deleting it from the input leaves the
output unchanged), and no output record ever has NOMOR_VOYAGE equal to
the placeholder. -/
theorem claim_C6_exclusion (rows pre post : List StandardizedRow)
    (r : StandardizedRow) (hrows : rows = pre ++ r :: post)
    (hr : r.NOMOR_VOYAGE = none ∨ r.NOMOR_VOYAGE = some "N/A") :
    aggregateVoyages rows = aggregateVoyages (pre ++ post)
    ∧ ∀ rec ∈ aggregateVoyages rows, rec.NOMOR_VOYAGE ≠ "N/A" := by
  have hu : usableVoyageId r = none := by
    rcases hr with h | h <;> simp [usableVoyageId, h]
  subst hrows
  refine ⟨aggregate_erase_unusable pre post r hu, ?_⟩
  intro rec hmem
  obtain ⟨q, hq, husable⟩ := aggregate_id_usable _ rec hmem
  exact (usableVoyageId_spec husable).2.1

/-- C6, witness: three rows of which the middle one has the placeholder
voyage id. -/
theorem claim_C6_exclusion_witness :
    ([exRowVA, exNARow, exRowVB] = [exRowVA] ++ exNARow :: [exRowVB])
    ∧ (exNARow.NOMOR_VOYAGE = none ∨ exNARow.NOMOR_VOYAGE = some "N/A")
    ∧ (aggregateVoyages [exRowVA, exNARow, exRowVB]
        = aggregateVoyages ([exRowVA] ++ [exRowVB])
      ∧ ∀ rec ∈ aggregateVoyages [exRowVA, exNARow, exRowVB],
          rec.NOMOR_VOYAGE ≠ "N/A") :=
  ⟨rfl, Or.inr rfl,
   claim_C6_exclusion _ [exRowVA] [exRowVB] exNARow rfl (Or.inr rfl)⟩

/-- C7: Voyage Aggregation is a pure deterministic function of its input
list: equal inputs produce identical record lists, records and order
included; there is no hidden state. -/
theorem claim_C7_deterministic (rowsA rowsB : List StandardizedRow)
    (h : rowsA = rowsB) : aggregateVoyages rowsA = aggregateVoyages rowsB := by
  rw [h]

/-- C7, witness at a concrete input run twice. -/
theorem claim_C7_deterministic_witness :
    ([exKeyRow1, exFillRow2] : List StandardizedRow) = [exKeyRow1, exFillRow2]
    ∧ aggregateVoyages [exKeyRow1, exFillRow2]
        = aggregateVoyages [exKeyRow1, exFillRow2] :=
  ⟨rfl, claim_C7_deterministic [exKeyRow1, exFillRow2] [exKeyRow1, exFillRow2] rfl⟩

/-- C8, counterexample: the claim says a chunk's contribution never exceeds
the rows fed into it regardless of what the extractor returns.  Feeding a
single raw row whose chunk response is an array of two rows makes the
stage contribute both: nothing caps the per-chunk row count. -/
theorem claim_C8_counterexample :
    ([()] : List Unit).length = 1
    ∧ 1 < ((standardizeAllRows
        (fun _ : List Unit => ExtractorOutcome.arrayOf [blankRow, blankRow])
        [()]).1).length := by
  have hch : chunksOf DATA_CHUNK_SIZE [()] = [[()]] := by
    show chunksOf 100 [()] = [[()]]
    rw [chunksOf_cons]
    simp [chunksOf_nil]
  refine ⟨rfl, ?_⟩
  unfold standardizeAllRows
  rw [hch]
  decide

/-- C8, amended: the Standardization Stage itself adds no rows beyond what
the extractor returns per chunk, so whenever the extractor honors the
one-to-one contract — returning at most as many objects as each chunk was
fed — the total output never exceeds the rows fed in; the bound is not
enforced against a misbehaving extractor. -/
theorem claim_C8_amended {ρ : Type}
    (extractor : List ρ → ExtractorOutcome StandardizedRow)
    (allRows : List ρ)
    (hext : ∀ chunk ∈ chunksOf DATA_CHUNK_SIZE allRows,
      (chunkContribution (extractor chunk)).length ≤ chunk.length) :
    ((standardizeAllRows extractor allRows).1).length ≤ allRows.length := by
  have hsz : (standardizeAllRows extractor allRows).1
      = (((chunksOf DATA_CHUNK_SIZE allRows).map extractor).map
          chunkContribution).flatten := by
    unfold standardizeAllRows
    rw [processChunks_eq]
  have hmm : (((chunksOf DATA_CHUNK_SIZE allRows).map extractor).map
        chunkContribution)
      = (chunksOf DATA_CHUNK_SIZE allRows).map
          (fun c => chunkContribution (extractor c)) := by
    rw [List.map_map]
    rfl
  rw [hsz, hmm]
  calc ((chunksOf DATA_CHUNK_SIZE allRows).map
        (fun c => chunkContribution (extractor c))).flatten.length
      ≤ (chunksOf DATA_CHUNK_SIZE allRows).flatten.length :=
        contributions_length_le extractor (chunksOf DATA_CHUNK_SIZE allRows) hext
    _ = allRows.length := by rw [chunksOf_flatten]

/-- C8, witness for the amended theorem: an extractor answering exactly one
row per input row keeps the output within the input size. -/
theorem claim_C8_amended_witness :
    (∀ chunk ∈ chunksOf DATA_CHUNK_SIZE ([0, 1, 2] : List Nat),
      (chunkContribution (ExtractorOutcome.arrayOf
        (chunk.map fun _ => blankRow))).length ≤ chunk.length)
    ∧ ((standardizeAllRows
        (fun c : List Nat => ExtractorOutcome.arrayOf (c.map fun _ => blankRow))
        [0, 1, 2]).1).length ≤ ([0, 1, 2] : List Nat).length := by
  have hh : ∀ chunk ∈ chunksOf DATA_CHUNK_SIZE ([0, 1, 2] : List Nat),
      (chunkContribution (ExtractorOutcome.arrayOf
        (chunk.map fun _ => blankRow))).length ≤ chunk.length := by
    intro c _
    simp [chunkContribution]
  exact ⟨hh, claim_C8_amended _ _ hh⟩

/-- C9: a readable document with zero pages yields an empty row list
non-fatally with zero chunks processed — the Structured Extractor is never
invoked — while a document that cannot be opened or decoded fails with its
error propagated to the caller. -/
theorem claim_C9_empty_and_unreadable {π ρ : Type}
    (extractor : List π → ExtractorOutcome ρ) (e : String) :
    extractTablesFromPdf extractor (Document.readable ([] : List π))
      = Except.ok ([], 0)
    ∧ extractTablesFromPdf extractor (Document.unreadable e)
      = Except.error e := by
  constructor
  · show Except.ok
        (processChunks ((chunksOf PDF_PAGE_CHUNK_SIZE ([] : List π)).map extractor))
      = Except.ok (([] : List ρ), 0)
    rw [chunksOf_nil]
    rfl
  · rfl

/-- C10: every emitted VoyageRecord is fully populated: its
JUMLAH_PENUMPANG is an integer of at least 1, and each string field whose
value is present in no row of the record's group is emitted as the literal
placeholder rather than null or omitted. -/
theorem claim_C10_no_nulls (rows : List StandardizedRow) (rec : VoyageRecord)
    (hmem : rec ∈ aggregateVoyages rows) :
    1 ≤ rec.JUMLAH_PENUMPANG
    ∧ ((∀ r ∈ voyageGroup rows rec.NOMOR_VOYAGE,
          presentValue r.TANGGAL = false) → rec.TANGGAL = "N/A")
    ∧ ((∀ r ∈ voyageGroup rows rec.NOMOR_VOYAGE,
          presentValue r.PELABUHAN_MUAT = false) → rec.PELABUHAN_MUAT = "N/A")
    ∧ ((∀ r ∈ voyageGroup rows rec.NOMOR_VOYAGE,
          presentValue r.PELABUHAN_BONGKAR = false) → rec.PELABUHAN_BONGKAR = "N/A")
    ∧ ((∀ r ∈ voyageGroup rows rec.NOMOR_VOYAGE,
          presentValue r.LAMA_PELAYARAN = false) → rec.LAMA_PELAYARAN = "N/A") := by
  obtain ⟨hne, hcount, ht, hm, hb, hl⟩ := aggregate_rec_spec rows rec hmem
  refine ⟨?_, ?_, ?_, ?_, ?_⟩
  · rw [hcount]
    cases hg : voyageGroup rows rec.NOMOR_VOYAGE with
    | nil => exact absurd hg hne
    | cons x xs => simp
  · intro habs
    rw [ht]
    refine firstPresent_of_all_absent _ ?_
    intro v hv
    obtain ⟨r, hr, hrv⟩ := List.mem_map.mp hv
    exact hrv ▸ habs r hr
  · intro habs
    rw [hm]
    refine firstPresent_of_all_absent _ ?_
    intro v hv
    obtain ⟨r, hr, hrv⟩ := List.mem_map.mp hv
    exact hrv ▸ habs r hr
  · intro habs
    rw [hb]
    refine firstPresent_of_all_absent _ ?_
    intro v hv
    obtain ⟨r, hr, hrv⟩ := List.mem_map.mp hv
    exact hrv ▸ habs r hr
  · intro habs
    rw [hl]
    refine firstPresent_of_all_absent _ ?_
    intro v hv
    obtain ⟨r, hr, hrv⟩ := List.mem_map.mp hv
    exact hrv ▸ habs r hr

/-- C10, witness: a single row with only a voyage id produces a record
whose missing string fields are all the placeholder and whose count is 1. -/
theorem claim_C10_no_nulls_witness :
    exRecordV9 ∈ aggregateVoyages [exRowV9]
    ∧ (1 ≤ exRecordV9.JUMLAH_PENUMPANG
      ∧ ((∀ r ∈ voyageGroup [exRowV9] exRecordV9.NOMOR_VOYAGE,
            presentValue r.TANGGAL = false) → exRecordV9.TANGGAL = "N/A")
      ∧ ((∀ r ∈ voyageGroup [exRowV9] exRecordV9.NOMOR_VOYAGE,
            presentValue r.PELABUHAN_MUAT = false) → exRecordV9.PELABUHAN_MUAT = "N/A")
      ∧ ((∀ r ∈ voyageGroup [exRowV9] exRecordV9.NOMOR_VOYAGE,
            presentValue r.PELABUHAN_BONGKAR = false) → exRecordV9.PELABUHAN_BONGKAR = "N/A")
      ∧ ((∀ r ∈ voyageGroup [exRowV9] exRecordV9.NOMOR_VOYAGE,
            presentValue r.LAMA_PELAYARAN = false) → exRecordV9.LAMA_PELAYARAN = "N/A")) :=
  ⟨by decide, claim_C10_no_nulls [exRowV9] exRecordV9 (by decide)⟩
